import Mathlib

/-
  Shallow embedding of src/soft_pic/em4205.c (EM4205/EM4305 RFID reader firmware,
  final revision).  Machine integers are modelled as Nat with explicit `% 2 ^ w`
  where overflow matters (the CCS compiler performs arithmetic at the size of the
  operands, so 8-bit expressions wrap at 256).  The interrupt-driven environment
  is modelled by a list `edges` of the successive inter-edge intervals (in µs)
  that the comparator-change handler `comp_change` delivers into
  `last_change_lapse`; an empty list means the Timer1 watchdog overflows before
  any further comparator transition.  An interval value of 0 is the sentinel
  "no new edge", so the busy-wait in `read_wait` skips over it (`nextEdge`).
-/

/-! ## Constants from em4205.h -/

/-- em4205.h line 17: one 125 kHz carrier cycle is 8 µs. -/
def CYCLE : Nat := 8

/-- em4205.h line 26: default semibit threshold (µs), RF/32 data rate. -/
def DEFAULT_SEMI_TIME : Nat := 190

/-- em4205.h line 47: buffer for command c, in octets. -/
def IOBUFF_SIZE : Nat := 7

/-- em4205.h line 49: buffer for command r, in octets. -/
def MAXBUFF_SIZE : Nat := 36

def ERR_NOERR : Nat := 0
def ERR_READ_TIMEOUT : Nat := 1
def ERR_READ_ERROR : Nat := 2
def ERR_EMPTY_MESSAGE : Nat := 3

/-- Reading status constants, em4205.h lines 40-44. -/
inductive RStatus
  | READING
  | HALF_BIT
  | READ_ERROR
  | READ_TIMEOUT
  | WAITING_START
deriving DecidableEq

/-! ## Global state

`Mach` packs the firmware globals (em4205.c lines 10-20) together with the
hardware timebase/vref registers and the environment trace `edges`.  -/

structure Mach where
  /-- `last_change_lapse`, em4205.c line 10. -/
  lapse : Nat
  /-- `status`, em4205.c line 13. -/
  status : RStatus
  /-- whether INT_COMP is armed. -/
  compInt : Bool
  /-- whether INT_TIMER1 is armed. -/
  tmrInt : Bool
  /-- the Timer1 µs counter. -/
  tmr : Nat
  /-- the active comparator reference level (setup_vref argument). -/
  vref : Nat
  /-- `thr_h`, em4205.c line 19. -/
  thrH : Nat
  /-- `thr_l`, em4205.c line 20. -/
  thrL : Nat
  /-- `semibit_time`, em4205.c line 16. -/
  semibit : Nat
  /-- environment: the inter-edge intervals the comparator will deliver. -/
  edges : List Nat
deriving DecidableEq

/-- A convenient idle machine for concrete scenarios. -/
def mkMach (semibit : Nat) (edges : List Nat) : Mach :=
  ⟨0, .WAITING_START, false, false, 0, 0, 0, 0, semibit, edges⟩

/-! ## Interrupt service routines, em4205.c lines 33-63 -/

/-- `tmr1_overflow`, lines 33-37: disable INT_TIMER1 and set `status` to
READ_TIMEOUT. -/
def tmr1_overflow (s : Mach) : Mach :=
  { s with tmrInt := false, status := .READ_TIMEOUT }

/-- `comp_change`, lines 40-63: read Timer1 into `us`, reset Timer1, flip the
comparator reference (C1OUT = 1 means V < Thr, i.e. the line is now low, so the
high threshold `thr_h` is armed; otherwise `thr_l`), and store `us` in
`last_change_lapse`.  `c1out` is the comparator output level at the time of the
interrupt. -/
def comp_change (c1out : Bool) (s : Mach) : Mach :=
  { s with lapse := s.tmr,
           tmr := 0,
           vref := if c1out then s.thrH else s.thrL }

/-! ## Bit buffers

The CCS builtins `shift_left`/`shift_right` treat the byte buffer as one large
bit string; we model the buffer as that bit string, most significant bit first,
with the length fixed at `8 * size` by the callers.  `shift_left` shifts the
whole buffer towards the MSB: the MSB falls out (returned) and `v` enters at
the LSB end.  `shift_right` shifts towards the LSB: `v` enters at the MSB end
and the LSB is dropped. -/

def shift_left (buff : List Bool) (v : Bool) : Bool × List Bool :=
  match buff with
  | [] => (false, [])
  | b :: rest => (b, rest ++ [v])

def shift_right (buff : List Bool) (v : Bool) : List Bool :=
  v :: buff.dropLast

/-! ## Write functions, em4205.c lines 75-123

`send_ffs`/`send_0`/`send_1` only produce precisely timed duty-cycle
changes; we record which of the three field patterns was emitted. -/

inductive TxSym
  | ffs
  | zero
  | one
deriving DecidableEq

def bitSym (b : Bool) : TxSym := if b then .one else .zero

/-- The loop of `send_buff` (lines 115-122): `n` iterations, each popping the
buffer MSB with `shift_left(buff, IOBUFF_SIZE, 0)` and emitting `send_1` or
`send_0` accordingly.  Returns the emitted symbols and the final buffer. -/
def send_loop : Nat → List Bool → List TxSym × List Bool
  | 0, b => ([], b)
  | n + 1, b =>
    let p := shift_left b false
    let q := send_loop n p.2
    ((if p.1 then TxSym.one else TxSym.zero) :: q.1, q.2)

/-- `send_buff`, lines 111-123: First Field Stop, then a 0 frame marker, then
the `n` leftmost buffer bits. -/
def send_buff (n : Nat) (buff : List Bool) : List TxSym × List Bool :=
  let q := send_loop n buff
  (TxSym.ffs :: TxSym.zero :: q.1, q.2)

/-- Loopback timing of one transmitted data bit as simulated comparator edge
intervals: a 0 is carrier on for 18 cycles then off for 20 (two intervals), a
1 is a single 31-cycle interval (lines 88-102). -/
def bit_timing (b : Bool) : List Nat :=
  if b then [31 * CYCLE] else [18 * CYCLE, 20 * CYCLE]

def tx_timing (bs : List Bool) : List Nat := (bs.map bit_timing).flatten

/-! ## Read functions, em4205.c lines 132-263 -/

/-- `read_start`, lines 132-147: clear any previous error condition, reset the
timebase and the pending edge interval, arm the high threshold and both
interrupt sources. -/
def read_start (s : Mach) : Mach :=
  { s with status := .READING,
           tmr := 0,
           lapse := 0,
           vref := s.thrH,
           compInt := true,
           tmrInt := true }

/-- `read_stop`, lines 153-157: disarm both interrupt sources. -/
def read_stop (s : Mach) : Mach :=
  { s with compInt := false, tmrInt := false }

/-- The busy-wait of `read_wait` consumes delivered intervals until a non-zero
one appears (a 0 is the sentinel "no new edge", so the spin continues). -/
def nextEdge : List Nat → Option (Nat × List Nat)
  | [] => none
  | i :: rest => if i = 0 then nextEdge rest else some (i, rest)

/-- `read_wait`, lines 167-178: spin while `last_change_lapse == 0` and
`status != READ_TIMEOUT`; if the exit was a timeout, `read_stop` and return 0,
else return 1 leaving the interval in `last_change_lapse`.  An exhausted
environment means Timer1 overflows: `tmr1_overflow` fires, then `read_wait`
itself calls `read_stop`. -/
def read_wait (s : Mach) : Bool × Mach :=
  if s.status = .READ_TIMEOUT then (false, read_stop s)
  else if s.lapse ≠ 0 then (true, s)
  else
    match nextEdge s.edges with
    | some p => (true, { s with lapse := p.1, edges := p.2 })
    | none => (false, read_stop (tmr1_overflow { s with edges := [] }))

/-- Return code computed after the while loop of `read_bits`
(lines 256-262). -/
def rb_exit_code (st : RStatus) : Nat :=
  if st = .READ_ERROR then ERR_READ_ERROR else ERR_NOERR

/-- Result of `read_bits`: return code, final `status`, final buffer, the two
interrupt-enable flags, the unconsumed environment, and the trace of bits that
were shifted into the buffer, in the order they were emitted. -/
structure RBRes where
  code : Nat
  status : RStatus
  buff : List Bool
  compInt : Bool
  tmrInt : Bool
  edges : List Nat
  trace : List Bool
deriving DecidableEq

/-- The while loop of `read_bits`, em4205.c lines 204-254, plus the common
exit path (lines 256-262).  One recursion step per delivered interval; at the
top of every loop iteration `last_change_lapse` is 0 (it is cleared at entry
and in every branch of the body), so each `read_wait` consumes the next
interval from the environment, skipping 0 sentinels.  Exits:
  - loop condition false (`status == READ_ERROR` or enough bits):
    `read_stop()` then return `ERR_READ_ERROR`/`ERR_NOERR` by status;
  - `read_wait` timeout (stale READ_TIMEOUT status, or environment
    exhausted so `tmr1_overflow` fires): `read_stop()` inside `read_wait`,
    return `ERR_READ_TIMEOUT` (line 206). -/
def rb_run (sb bits : Nat) : List Nat → RStatus → List Bool → Nat → List Bool → RBRes
  | [], st, buff, n, tr =>
    if st = .READ_ERROR ∨ bits ≤ n then
      ⟨rb_exit_code st, st, buff, false, false, [], tr⟩
    else if st = .READ_TIMEOUT then
      ⟨ERR_READ_TIMEOUT, st, buff, false, false, [], tr⟩
    else
      ⟨ERR_READ_TIMEOUT, .READ_TIMEOUT, buff, false, false, [], tr⟩
  | i :: es, st, buff, n, tr =>
    if st = .READ_ERROR ∨ bits ≤ n then
      ⟨rb_exit_code st, st, buff, false, false, i :: es, tr⟩
    else if st = .READ_TIMEOUT then
      ⟨ERR_READ_TIMEOUT, st, buff, false, false, i :: es, tr⟩
    else if i = 0 then
      rb_run sb bits es st buff n tr
    else if i ≤ sb then
      if st = .HALF_BIT then
        rb_run sb bits es .READING (shift_right buff false) (n + 1) (tr ++ [false])
      else
        rb_run sb bits es .HALF_BIT buff n tr
    else
      if st = .HALF_BIT then
        rb_run sb bits es .READ_ERROR buff n tr
      else
        rb_run sb bits es .READING (shift_right buff true) (n + 1) (tr ++ [true])

/-- `read_bits`, em4205.c lines 200-263.  Line 202 sets
`last_change_lapse = 0` before the loop, so a pending (unconsumed) edge
interval in `s.lapse` is discarded and never classified. -/
def read_bits (bits : Nat) (s : Mach) (buff : List Bool) : RBRes :=
  rb_run s.semibit bits s.edges s.status buff 0 []

/-! ## Reader commands, em4205.c lines 286-423 -/

/-- A command response on the serial link: the status byte, and the bit buffer
when it is emitted. -/
structure CResp where
  code : Nat
  payload : Option (List Bool)
deriving DecidableEq

/-- Common tail of `cmd_c` (lines 311-321) and `cmd_r` (lines 376-386): emit
the status byte, followed by the whole buffer iff the status is
`ERR_NOERR`. -/
def c_finish (r : RBRes) : CResp :=
  if r.code = ERR_NOERR then ⟨ERR_NOERR, some r.buff⟩ else ⟨r.code, none⟩

/-- `cmd_c`, em4205.c lines 286-322: send `bits_to_send` from `iobuff`, zero
the buffer, `read_start`, one `read_wait` (whose consumed first edge is left
pending in `last_change_lapse` and then discarded by `read_bits`), then
`read_bits(bits_to_recv)`.  Returns the transmitted field symbols and the
serial response. -/
def cmd_c (bits_to_send bits_to_recv : Nat) (iobuff : List Bool) (s : Mach) :
    List TxSym × CResp :=
  let tx := (send_buff bits_to_send iobuff).1
  let w := read_wait (read_start s)
  if w.1 = false then (tx, ⟨ERR_READ_TIMEOUT, none⟩)
  else (tx, c_finish (read_bits bits_to_recv w.2 (List.replicate (8 * IOBUFF_SIZE) false)))

/-- Outcome of the zero-skip loop of `cmd_r` (lines 356-371). -/
inductive SkipOut
  | sync (lapse : Nat) (edges : List Nat)
  | empty
  | timeout
deriving DecidableEq

/-- The zero-skip loop of `cmd_r`, em4205.c lines 356-371:
`while (last_change_lapse < semibit_time)` — note the strict comparison —
clear the lapse, decrement `semizeros` (16-bit), return `ERR_EMPTY_MESSAGE`
when it hits 0, else `read_wait` for the next interval.  One recursion step
per loop iteration, structural on the counter.  The `0` pattern is
unreachable from `cmd_r` (the counter starts at 2*MAXBUFF_SIZE*8 and the loop
exits at 1); in C the 16-bit decrement would wrap there. -/
def skip_zeros (sb : Nat) : Nat → Nat → List Nat → SkipOut
  | 0, lapse, edges =>
    if sb ≤ lapse then .sync lapse edges else .empty
  | 1, lapse, edges =>
    if sb ≤ lapse then .sync lapse edges else .empty
  | sz + 2, lapse, edges =>
    if sb ≤ lapse then .sync lapse edges
    else
      match nextEdge edges with
      | none => .timeout
      | some p => skip_zeros sb (sz + 1) p.1 p.2

/-- `cmd_r`, em4205.c lines 339-387: zero the 36-byte buffer, `read_start`,
`read_wait`, skip up to `2*MAXBUFF_SIZE*8` semibit pulses waiting for a one
(the interval that ends the skip loop stays pending in `last_change_lapse`
and is then discarded by `read_bits`), then `read_bits(288)`. -/
def cmd_r (s : Mach) : CResp :=
  let w := read_wait (read_start s)
  if w.1 = false then ⟨ERR_READ_TIMEOUT, none⟩
  else
    match skip_zeros s.semibit (2 * MAXBUFF_SIZE * 8) w.2.lapse w.2.edges with
    | .empty => ⟨ERR_EMPTY_MESSAGE, none⟩
    | .timeout => ⟨ERR_READ_TIMEOUT, none⟩
    | .sync lap rest =>
      c_finish (read_bits 288 { w.2 with lapse := lap, edges := rest }
        (List.replicate (8 * MAXBUFF_SIZE) false))

/-- `cmd_t`, em4205.c lines 412-423: the argument is one byte; 0 means "get"
(reply with `semibit_time >> 1`, truncated to a byte by `putc`), otherwise
store `arg << 1`.  CCS arithmetic is performed at the operand size, so the
8-bit shift `arg<<1` wraps at 256 before the assignment to the 16-bit
`semibit_time`.  Returns the new stored `semibit_time` and the emitted
bytes. -/
def cmd_t (arg : Nat) (semibit_time : Nat) : Nat × List Nat :=
  let a := arg % 256
  if a = 0 then
    (semibit_time, [ERR_NOERR, (semibit_time / 2) % 256])
  else
    ((2 * a) % 256, [ERR_NOERR])

/-! ## Helper lemmas -/

theorem nextEdge_pos (i : Nat) (rest : List Nat) (hi : i ≠ 0) :
    nextEdge (i :: rest) = some (i, rest) := by
  simp [nextEdge, hi]

/-- Every exit path of the `read_bits` loop leaves both interrupt-enable
flags cleared: the loop exit calls `read_stop()` (line 256) and the timeout
exit goes through `read_stop()` inside `read_wait` (line 172). -/
theorem rb_run_stop (sb bits : Nat) (es : List Nat) :
    ∀ (st : RStatus) (buff : List Bool) (n : Nat) (tr : List Bool),
      (rb_run sb bits es st buff n tr).compInt = false ∧
      (rb_run sb bits es st buff n tr).tmrInt = false := by
  induction es with
  | nil =>
    intro st buff n tr
    simp only [rb_run]
    split_ifs <;> simp
  | cons i es ih =>
    intro st buff n tr
    simp only [rb_run]
    split_ifs <;> first | simp | exact ih ..

theorem rb_exit_code_cases (st : RStatus) :
    rb_exit_code st = ERR_NOERR ∨ rb_exit_code st = ERR_READ_ERROR := by
  unfold rb_exit_code
  split_ifs <;> simp

/-- The `read_bits` loop only ever returns `ERR_NOERR`, `ERR_READ_TIMEOUT`
or `ERR_READ_ERROR`. -/
theorem rb_run_code (sb bits : Nat) (es : List Nat) :
    ∀ (st : RStatus) (buff : List Bool) (n : Nat) (tr : List Bool),
      (rb_run sb bits es st buff n tr).code = ERR_NOERR ∨
      (rb_run sb bits es st buff n tr).code = ERR_READ_TIMEOUT ∨
      (rb_run sb bits es st buff n tr).code = ERR_READ_ERROR := by
  induction es with
  | nil =>
    intro st buff n tr
    simp only [rb_run]
    split_ifs <;>
      first
        | (simp; rcases rb_exit_code_cases st with h | h <;> simp [h])
        | simp
  | cons i es ih =>
    intro st buff n tr
    simp only [rb_run]
    split_ifs <;>
      first
        | (simp; rcases rb_exit_code_cases st with h | h <;> simp [h])
        | simp
        | exact ih ..

/-! ## Claim theorems -/

/-- C2: the decoder of `read_bits` follows exactly the biphase transition
table: in READING a half-period pulse (interval at most the semibit time)
moves to HALF_BIT emitting no bit, a whole-period pulse stays in READING
emitting bit 1; in HALF_BIT a half-period pulse returns to READING emitting
bit 0, and a whole-period pulse moves to READ_ERROR, which ends decoding with
no further bits emitted and return code `ERR_READ_ERROR`. -/
theorem C2_transition_table :
    ∀ (sb bits i : Nat) (es : List Nat) (buff : List Bool) (n : Nat) (tr : List Bool),
      n < bits → 0 < i →
      (i ≤ sb →
        rb_run sb bits (i :: es) .READING buff n tr
          = rb_run sb bits es .HALF_BIT buff n tr) ∧
      (sb < i →
        rb_run sb bits (i :: es) .READING buff n tr
          = rb_run sb bits es .READING (shift_right buff true) (n + 1) (tr ++ [true])) ∧
      (i ≤ sb →
        rb_run sb bits (i :: es) .HALF_BIT buff n tr
          = rb_run sb bits es .READING (shift_right buff false) (n + 1) (tr ++ [false])) ∧
      (sb < i →
        rb_run sb bits (i :: es) .HALF_BIT buff n tr
          = rb_run sb bits es .READ_ERROR buff n tr) ∧
      ((rb_run sb bits es .READ_ERROR buff n tr).code = ERR_READ_ERROR ∧
       (rb_run sb bits es .READ_ERROR buff n tr).trace = tr) := by
  intro sb bits i es buff n tr hn hi
  have hbn : ¬ bits ≤ n := Nat.not_le.mpr hn
  have hi0 : i ≠ 0 := Nat.pos_iff_ne_zero.mp hi
  refine ⟨?_, ?_, ?_, ?_, ?_⟩
  · intro hle
    simp [rb_run, hbn, hi0, hle]
  · intro hlt
    simp [rb_run, hbn, hi0, Nat.not_le.mpr hlt]
  · intro hle
    simp [rb_run, hbn, hi0, hle]
  · intro hlt
    simp [rb_run, hbn, hi0, Nat.not_le.mpr hlt]
  · cases es <;> simp [rb_run, rb_exit_code]

/-- C2 witness: the transition table instantiated at semibit time 190,
interval 100, two requested bits. -/
theorem C2_transition_table_witness :
    rb_run 190 2 [100] .READING [false] 0 []
      = rb_run 190 2 [] .HALF_BIT [false] 0 [] :=
  (C2_transition_table 190 2 100 [] [false] 0 [] (by decide) (by decide)).1 (by decide)

/-- C3: an edge interval exactly equal to the semibit time classifies as a
half-period pulse (the boundary is inclusive on the half side), and the
concrete scenario with threshold 190 and interval stream [190, 190, 400]
starting in READING emits bit 0 then bit 1 — two bits total — with status
`ERR_NOERR` when two bits were requested. -/
theorem C3_boundary_inclusive :
    (∀ (sb bits : Nat) (es : List Nat) (buff : List Bool) (n : Nat) (tr : List Bool),
      0 < sb → n < bits →
      rb_run sb bits (sb :: es) .READING buff n tr
        = rb_run sb bits es .HALF_BIT buff n tr) ∧
    (read_bits 2 (read_start (mkMach DEFAULT_SEMI_TIME [190, 190, 400]))
        (List.replicate (8 * IOBUFF_SIZE) false)).trace = [false, true] ∧
    (read_bits 2 (read_start (mkMach DEFAULT_SEMI_TIME [190, 190, 400]))
        (List.replicate (8 * IOBUFF_SIZE) false)).code = ERR_NOERR := by
  refine ⟨?_, by decide, by decide⟩
  intro sb bits es buff n tr hsb hn
  have hbn : ¬ bits ≤ n := Nat.not_le.mpr hn
  have hsb0 : sb ≠ 0 := Nat.pos_iff_ne_zero.mp hsb
  simp [rb_run, hbn, hsb0]

/-- C3 witness: the generic boundary step instantiated at semibit time 190. -/
theorem C3_boundary_inclusive_witness :
    (0 : Nat) < 190 ∧ (0 : Nat) < 1 ∧
    rb_run 190 1 [190] .READING [] 0 [] = rb_run 190 1 [] .HALF_BIT [] 0 [] :=
  ⟨by decide, by decide,
    C3_boundary_inclusive.1 190 1 [] [] 0 [] (by decide) (by decide)⟩

/-- C5: `read_bits` disarms both interrupt sources on every exit path —
bit-count completion, READ_ERROR, and the timeout path through `read_wait` —
and returns one of `ERR_NOERR`, `ERR_READ_TIMEOUT`, `ERR_READ_ERROR`. -/
theorem C5_disarm_on_exit :
    ∀ (bits : Nat) (s : Mach) (buff : List Bool),
      (read_bits bits s buff).compInt = false ∧
      (read_bits bits s buff).tmrInt = false ∧
      ((read_bits bits s buff).code = ERR_NOERR ∨
       (read_bits bits s buff).code = ERR_READ_TIMEOUT ∨
       (read_bits bits s buff).code = ERR_READ_ERROR) := by
  intro bits s buff
  refine ⟨(rb_run_stop s.semibit bits s.edges s.status buff 0 []).1,
          (rb_run_stop s.semibit bits s.edges s.status buff 0 []).2,
          rb_run_code s.semibit bits s.edges s.status buff 0 []⟩

/-- C8: on every invocation, the Edge Capture handler `comp_change` stores the
elapsed Timer1 time as the Edge Interval, resets the timebase, and arms the
hysteresis threshold opposite to the new line level (C1OUT = 1 means the line
is low, arming `thr_h`; C1OUT = 0 means high, arming `thr_l`); it never
modifies the Reader State, which is changed asynchronously only by the
Timeout Supervisor `tmr1_overflow`. -/
theorem C8_edge_capture :
    ∀ (c1out : Bool) (s : Mach),
      (comp_change c1out s).lapse = s.tmr ∧
      (comp_change c1out s).tmr = 0 ∧
      (comp_change c1out s).vref = (if c1out then s.thrH else s.thrL) ∧
      (comp_change c1out s).status = s.status ∧
      (tmr1_overflow s).status = .READ_TIMEOUT := by
  intro c1out s
  refine ⟨rfl, rfl, rfl, rfl, rfl⟩

/-- C9: `read_bits` with a requested bit count of 0, called after
`read_start`, returns `ERR_NOERR` immediately, consumes no edge (the
environment is returned untouched), emits no bit, and still leaves both
interrupt sources disarmed. -/
theorem C9_zero_bits :
    ∀ (s : Mach) (buff : List Bool),
      read_bits 0 (read_start s) buff
        = ⟨ERR_NOERR, .READING, buff, false, false, s.edges, []⟩ := by
  intro s buff
  cases h : s.edges <;>
    simp [read_bits, read_start, rb_run, rb_exit_code, h]

/-- The `send_buff` loop pops the buffer MSB-first: if the buffer starts with
`bs`, the first `bs.length` iterations emit exactly the symbols of `bs`. -/
theorem send_loop_spec (bs : List Bool) :
    ∀ (rest : List Bool),
      (send_loop bs.length (bs ++ rest)).1 = bs.map bitSym := by
  induction bs with
  | nil => intro rest; simp [send_loop]
  | cons b tl ih =>
    intro rest
    have : (tl ++ rest) ++ [false] = tl ++ (rest ++ [false]) := by
      simp [List.append_assoc]
    simp only [List.length_cons, List.cons_append, send_loop, shift_left, this,
      ih (rest ++ [false]), List.map_cons, bitSym]

/-- Decoding the loopback timing of a bit sequence from state READING emits
exactly that sequence and ends with `ERR_NOERR`, for any semibit threshold
that separates the 20-cycle half gap from the 31-cycle whole interval. -/
theorem rb_run_tx (sb : Nat) (h1 : 20 * CYCLE ≤ sb) (h2 : sb < 31 * CYCLE) (bs : List Bool) :
    ∀ (k : Nat) (buff tr : List Bool),
      rb_run sb (k + bs.length) (tx_timing bs) .READING buff k tr
        = ⟨ERR_NOERR, .READING, bs.foldl shift_right buff, false, false, [], tr ++ bs⟩ := by
  have h144 : 18 * CYCLE ≤ sb := le_trans (by decide) h1
  have h1440 : ¬ (18 * CYCLE = 0) := by decide
  have h1600 : ¬ (20 * CYCLE = 0) := by decide
  have h2480 : ¬ (31 * CYCLE = 0) := by decide
  induction bs with
  | nil =>
    intro k buff tr
    simp [tx_timing, rb_run, rb_exit_code]
  | cons b tl ih =>
    intro k buff tr
    have hbits : k + (b :: tl).length = (k + 1) + tl.length := by
      simp [List.length_cons]; omega
    have hk : ¬ ((k + 1) + tl.length ≤ k) := by omega
    rw [hbits]
    cases b with
    | false =>
      have e : tx_timing (false :: tl) = 18 * CYCLE :: 20 * CYCLE :: tx_timing tl := by
        simp [tx_timing, bit_timing]
      rw [e]
      simp only [rb_run, hk, h144, h1, h1440, h1600]
      rw [ih (k + 1) (shift_right buff false) (tr ++ [false])]
      simp [List.foldl, List.append_assoc]
    | true =>
      have e : tx_timing (true :: tl) = 31 * CYCLE :: tx_timing tl := by
        simp [tx_timing, bit_timing]
      rw [e]
      simp only [rb_run, hk, h2480, Nat.not_le.mpr h2]
      rw [ih (k + 1) (shift_right buff true) (tr ++ [true])]
      simp [List.foldl, List.append_assoc]

/-- C1: round-trip.  For every bit sequence of length at most the 56-bit
buffer capacity, `send_buff` transmits First-Field-Stop, then a single 0-bit
frame marker, then the bits MSB-first via `send_1`/`send_0`; and feeding
`read_bits` the resulting inter-edge timing of the data bits (18+20-cycle
spacing per 0, a single 31-cycle interval per 1) with the default semibit
time of 190 µs reconstructs the original sequence bit-for-bit with status
`ERR_NOERR`. -/
theorem C1_roundtrip :
    ∀ (bs : List Bool) (s : Mach) (buff : List Bool),
      bs.length ≤ 8 * IOBUFF_SIZE →
      s.semibit = DEFAULT_SEMI_TIME →
      (send_buff bs.length (bs ++ List.replicate (8 * IOBUFF_SIZE - bs.length) false)).1
          = TxSym.ffs :: TxSym.zero :: bs.map bitSym ∧
      (read_bits bs.length (read_start { s with edges := tx_timing bs }) buff).trace = bs ∧
      (read_bits bs.length (read_start { s with edges := tx_timing bs }) buff).code
          = ERR_NOERR := by
  intro bs s buff _ hsb
  have hrun := rb_run_tx DEFAULT_SEMI_TIME (by decide) (by decide) bs 0 buff []
  have hread :
      read_bits bs.length (read_start { s with edges := tx_timing bs }) buff
        = ⟨ERR_NOERR, .READING, bs.foldl shift_right buff, false, false, [], bs⟩ := by
    rw [read_bits]
    simp only [read_start, hsb]
    rw [show bs.length = 0 + bs.length from (Nat.zero_add _).symm]
    simpa using hrun
  refine ⟨?_, ?_, ?_⟩
  · simp [send_buff, send_loop_spec bs]
  · rw [hread]
  · rw [hread]

/-- C1 witness: the round trip at the concrete sequence [1,0,1]. -/
theorem C1_roundtrip_witness :
    ([true, false, true] : List Bool).length ≤ 8 * IOBUFF_SIZE ∧
    (mkMach DEFAULT_SEMI_TIME []).semibit = DEFAULT_SEMI_TIME ∧
    (read_bits 3 (read_start
        { mkMach DEFAULT_SEMI_TIME [] with edges := tx_timing [true, false, true] })
        (List.replicate (8 * IOBUFF_SIZE) false)).trace = [true, false, true] :=
  ⟨by decide, by decide,
    (C1_roundtrip [true, false, true] (mkMach DEFAULT_SEMI_TIME [])
      (List.replicate (8 * IOBUFF_SIZE) false) (by decide) (by decide)).2.1⟩

/-- C6: the transmit+receive command `cmd_c` emits the status byte followed by
the 7-byte payload buffer if and only if the status is `ERR_NOERR`; on
`ERR_READ_ERROR` and `ERR_READ_TIMEOUT` only the status byte is emitted, so
partial bits already decoded are never returned to the caller. -/
theorem C6_payload_iff_noerr :
    ∀ (a b : Nat) (io : List Bool) (s : Mach),
      ((cmd_c a b io s).2.payload ≠ none ↔ (cmd_c a b io s).2.code = ERR_NOERR) ∧
      ((cmd_c a b io s).2.code = ERR_NOERR →
        (cmd_c a b io s).2.payload
          = some (read_bits b (read_wait (read_start s)).2
              (List.replicate (8 * IOBUFF_SIZE) false)).buff) := by
  intro a b io s
  simp only [cmd_c]
  by_cases hw : (read_wait (read_start s)).1 = false
  · simp [hw, ERR_READ_TIMEOUT, ERR_NOERR]
  · by_cases hc : (read_bits b (read_wait (read_start s)).2
        (List.replicate (8 * IOBUFF_SIZE) false)).code = ERR_NOERR
    · simp [hw, c_finish, hc]
    · simp [hw, c_finish, hc]

/-- C7 counterexample: the claim fails at request byte 128.  CCS performs the
shift `arg<<1` at the 8-bit operand size, so setting 128 stores
`(2*128) % 256 = 0` — not 2×128 — and the subsequent get request replies 0,
not 128. -/
theorem C7_cex_128 :
    (cmd_t 128 DEFAULT_SEMI_TIME).1 = 0 ∧
    (cmd_t 128 DEFAULT_SEMI_TIME).1 ≠ 2 * 128 ∧
    (cmd_t 0 (cmd_t 128 DEFAULT_SEMI_TIME).1).2 = [ERR_NOERR, 0] ∧
    (cmd_t 0 (cmd_t 128 DEFAULT_SEMI_TIME).1).2 ≠ [ERR_NOERR, 128] := by
  decide

/-- C7 amended: semibit-threshold configuration round-trips for every request
byte v with 1 ≤ v ≤ 127 (for v ≥ 128 the 8-bit shift `arg<<1` wraps): after a
set request with payload v the stored semibit time is 2×v, and a following
get request (payload 0) replies with the stored value divided by 2, i.e. v,
leaving the stored value unchanged. -/
theorem C7_amended :
    ∀ (v sb0 : Nat), 1 ≤ v → v ≤ 127 →
      (cmd_t v sb0).1 = 2 * v ∧
      (cmd_t v sb0).2 = [ERR_NOERR] ∧
      (cmd_t 0 (cmd_t v sb0).1).2 = [ERR_NOERR, (cmd_t v sb0).1 / 2] ∧
      (cmd_t v sb0).1 / 2 = v ∧
      (cmd_t 0 (cmd_t v sb0).1).1 = (cmd_t v sb0).1 := by
  intro v sb0 h1 h127
  have hmod : v % 256 = v := Nat.mod_eq_of_lt (by omega)
  have hnz : ¬ (v % 256 = 0) := by omega
  have h2v : (2 * v) % 256 = 2 * v := Nat.mod_eq_of_lt (by omega)
  have hdiv : 2 * v / 2 = v := by omega
  have hv0 : ¬ (v = 0) := by omega
  refine ⟨?_, ?_, ?_, ?_, ?_⟩ <;>
    simp [cmd_t, hmod, hnz, hv0, h2v, hdiv]

/-- C7 witness: the amended round trip at the default value 95 (2×95 = 190 µs). -/
theorem C7_amended_witness :
    (1 : Nat) ≤ 95 ∧ (95 : Nat) ≤ 127 ∧
    (cmd_t 95 DEFAULT_SEMI_TIME).1 = 2 * 95 ∧
    (cmd_t 0 (cmd_t 95 DEFAULT_SEMI_TIME).1).2
      = [ERR_NOERR, (cmd_t 95 DEFAULT_SEMI_TIME).1 / 2] :=
  ⟨by decide, by decide,
    (C7_amended 95 DEFAULT_SEMI_TIME (by decide) (by decide)).1,
    (C7_amended 95 DEFAULT_SEMI_TIME (by decide) (by decide)).2.2.1⟩

/-- After `read_start`, `read_wait` consumes the first (non-zero) delivered
interval and leaves it pending in `last_change_lapse`. -/
theorem read_wait_start_cons (s : Mach) (i : Nat) (rest : List Nat)
    (hE : s.edges = i :: rest) (hi : i ≠ 0) :
    read_wait (read_start s)
      = (true, { read_start s with lapse := i, edges := rest }) := by
  simp [read_wait, read_start, hE, nextEdge, hi]

/-- The zero-skip loop exits immediately on a pending interval not strictly
below the semibit time. -/
theorem skip_zeros_sync (sb sz lapse : Nat) (edges : List Nat) (h : sb ≤ lapse) :
    skip_zeros sb sz lapse edges = .sync lapse edges := by
  cases sz with
  | zero => simp [skip_zeros, h]
  | succ m =>
    cases m with
    | zero => simp [skip_zeros, h]
    | succ k => simp [skip_zeros, h]

/-- One iteration of the zero-skip loop on a short pending interval: clear
the lapse, decrement the counter, wait for the next delivered interval. -/
theorem skip_zeros_step (sb sz lapse a : Nat) (es : List Nat)
    (hlt : lapse < sb) (ha : a ≠ 0) :
    skip_zeros sb (sz + 2) lapse (a :: es) = skip_zeros sb (sz + 1) a es := by
  simp only [skip_zeros, Nat.not_le.mpr hlt, if_false, nextEdge_pos a es ha]

/-- If the counter is one more than the number of remaining short intervals,
the zero-skip loop exhausts its bound and reports an empty message. -/
theorem skip_zeros_empty (sb : Nat) (tail : List Nat) :
    ∀ (lapse : Nat) (more : List Nat),
      (∀ e ∈ tail, 0 < e ∧ e < sb) → 0 < lapse → lapse < sb →
      skip_zeros sb (tail.length + 1) lapse (tail ++ more) = .empty := by
  induction tail with
  | nil =>
    intro lapse more _ h0 hlt
    simp [skip_zeros, Nat.not_le.mpr hlt]
  | cons a tl ih =>
    intro lapse more hall h0 hlt
    have ha := hall a (List.mem_cons_self a tl)
    have hsz : (a :: tl).length + 1 = tl.length + 2 := by simp
    rw [hsz, List.cons_append]
    simp only [skip_zeros, Nat.not_le.mpr hlt, if_false,
      nextEdge_pos a (tl ++ more) (Nat.pos_iff_ne_zero.mp ha.1)]
    exact ih a more (fun e he => hall e (List.mem_cons_of_mem a he)) ha.1 ha.2

/-- The zero-skip loop runs through any short-interval prefix that is shorter
than its bound and synchronizes on the first interval reaching the semibit
time. -/
theorem skip_zeros_run (sb : Nat) (tail : List Nat) :
    ∀ (d lapse j : Nat) (rest : List Nat),
      (∀ e ∈ tail, 0 < e ∧ e < sb) → 0 < lapse → lapse < sb → sb ≤ j →
      skip_zeros sb (tail.length + d + 2) lapse (tail ++ j :: rest) = .sync j rest := by
  induction tail with
  | nil =>
    intro d lapse j rest _ h0 hlt hj
    have hj0 : j ≠ 0 := by omega
    simp only [List.length_nil, List.nil_append, Nat.zero_add]
    simp only [skip_zeros, Nat.not_le.mpr hlt, if_false, nextEdge_pos j rest hj0]
    exact skip_zeros_sync sb (d + 1) j rest hj
  | cons a tl ih =>
    intro d lapse j rest hall h0 hlt hj
    have ha := hall a (List.mem_cons_self a tl)
    have hsz : (a :: tl).length + d + 2 = (tl.length + d + 1) + 2 := by simp; omega
    rw [hsz, List.cons_append,
      skip_zeros_step sb (tl.length + d + 1) lapse a (tl ++ j :: rest) hlt
        (Nat.pos_iff_ne_zero.mp ha.1),
      show tl.length + d + 1 + 1 = tl.length + d + 2 from by omega]
    exact ih d a j rest (fun e he => hall e (List.mem_cons_of_mem a he)) ha.1 ha.2 hj

/-- C10: `read_bits` clears any pending Edge Interval (line 202) before its
decode loop, so a pending edge is never classified into a bit: (1) the result
of `read_bits` does not depend on the pending `last_change_lapse`; (2) in
`cmd_c` the first edge after arming, consumed by the preceding `read_wait`,
is discarded and decoding runs on the remaining intervals only; (3) in
`cmd_r` the pulse that terminated the zero-skip loop is discarded and does
not appear as the first 1 bit of the 288-bit message. -/
theorem C10_pending_edge_discarded :
    (∀ (bits l : Nat) (s : Mach) (buff : List Bool),
       read_bits bits { s with lapse := l } buff = read_bits bits s buff) ∧
    (∀ (a b i : Nat) (io : List Bool) (s : Mach) (rest : List Nat),
       s.edges = i :: rest → 0 < i →
       cmd_c a b io s
         = ((send_buff a io).1,
            c_finish (rb_run s.semibit b rest .READING
              (List.replicate (8 * IOBUFF_SIZE) false) 0 []))) ∧
    (∀ (j : Nat) (s : Mach) (rest : List Nat),
       s.edges = j :: rest → s.semibit ≤ j → 0 < j →
       cmd_r s
         = c_finish (rb_run s.semibit 288 rest .READING
             (List.replicate (8 * MAXBUFF_SIZE) false) 0 [])) := by
  refine ⟨?_, ?_, ?_⟩
  · intro bits l s buff
    rfl
  · intro a b i io s rest hE hi
    simp only [cmd_c,
      read_wait_start_cons s i rest hE (Nat.pos_iff_ne_zero.mp hi)]
    simp [read_bits, read_start]
  · intro j s rest hE hj hj0
    simp only [cmd_r,
      read_wait_start_cons s j rest hE (Nat.pos_iff_ne_zero.mp hj0)]
    simp only [read_start]
    simp only [skip_zeros_sync _ _ j rest hj]
    simp [read_bits]

/-- C10 witness: in a transmit+receive with edge stream [200, 400], the first
edge (200) is discarded and decoding sees only [400]. -/
theorem C10_pending_edge_discarded_witness :
    (mkMach 190 [200, 400]).edges = 200 :: [400] ∧ (0 : Nat) < 200 ∧
    cmd_c 0 1 [] (mkMach 190 [200, 400])
      = ((send_buff 0 []).1,
         c_finish (rb_run 190 1 [400] .READING
           (List.replicate (8 * IOBUFF_SIZE) false) 0 [])) :=
  ⟨rfl, by decide,
    C10_pending_edge_discarded.2.1 0 1 200 [] (mkMach 190 [200, 400]) [400]
      rfl (by decide)⟩

set_option maxRecDepth 8000 in
/-- C4 counterexample: with semibit time 190, a stream of 576 pulses of
exactly 190 µs — every one a half-period pulse by the decoder's inclusive
classification (190 ≤ 190), none a whole-period pulse (¬ 190 < 190) — does
NOT make `cmd_r` return `ERR_EMPTY_MESSAGE`: the skip loop compares with
strict `<` (line 356), so the very first boundary pulse terminates it and
`cmd_r` proceeds to decode, ending in `ERR_READ_TIMEOUT`. -/
theorem C4_cex_boundary :
    (List.replicate 576 190 : List Nat).length = 2 * MAXBUFF_SIZE * 8 ∧
    (190 : Nat) ≤ 190 ∧ ¬ (190 : Nat) < 190 ∧
    (mkMach 190 (List.replicate 576 190)).semibit = 190 ∧
    (cmd_r (mkMach 190 (List.replicate 576 190))).code = ERR_READ_TIMEOUT ∧
    (cmd_r (mkMach 190 (List.replicate 576 190))).code ≠ ERR_EMPTY_MESSAGE := by
  decide

/-- C4 amended: `cmd_r` first skips a run of pulses whose intervals are
strictly shorter than the semibit time (not "at most": a pulse exactly equal
to the semibit time already terminates the skip), bounded by
2*MAXBUFF_SIZE*8 = 576: if 576 such strictly-short pulses arrive with no
pulse reaching the semibit time, it returns `ERR_EMPTY_MESSAGE`; the skip
loop terminates exactly on the first pulse whose interval is at least the
semibit time, after which it proceeds as `read_bits` for the fixed 288-bit
message length. -/
theorem C4_amended :
    (∀ (s : Mach) (shorts more : List Nat),
       shorts.length = 2 * MAXBUFF_SIZE * 8 →
       (∀ e ∈ shorts, 0 < e ∧ e < s.semibit) →
       cmd_r { s with edges := shorts ++ more } = ⟨ERR_EMPTY_MESSAGE, none⟩) ∧
    (∀ (s : Mach) (shorts : List Nat) (j : Nat) (rest : List Nat),
       shorts.length < 2 * MAXBUFF_SIZE * 8 →
       (∀ e ∈ shorts, 0 < e ∧ e < s.semibit) →
       s.semibit ≤ j → 0 < j →
       cmd_r { s with edges := shorts ++ j :: rest }
         = c_finish (rb_run s.semibit 288 rest .READING
             (List.replicate (8 * MAXBUFF_SIZE) false) 0 [])) := by
  have h576 : 2 * MAXBUFF_SIZE * 8 = 576 := by norm_num [MAXBUFF_SIZE]
  constructor
  · intro s shorts more hlen hall
    cases shorts with
    | nil => rw [h576] at hlen; simp at hlen
    | cons a tl =>
      have ha := hall a (List.mem_cons_self a tl)
      have hE : ({ s with edges := (a :: tl) ++ more } : Mach).edges
          = a :: (tl ++ more) := by simp
      simp only [cmd_r,
        read_wait_start_cons _ a (tl ++ more) hE (Nat.pos_iff_ne_zero.mp ha.1)]
      simp only [read_start]
      have hlen2 : 2 * MAXBUFF_SIZE * 8 = tl.length + 1 := by
        rw [h576] at hlen ⊢
        simp at hlen
        omega
      rw [hlen2, skip_zeros_empty s.semibit tl a more
        (fun e he => hall e (List.mem_cons_of_mem a he)) ha.1 ha.2]
      simp
  · intro s shorts j rest hlen hall hj hj0
    cases shorts with
    | nil =>
      have hE : ({ s with edges := [] ++ j :: rest } : Mach).edges
          = j :: rest := by simp
      simp only [cmd_r,
        read_wait_start_cons _ j rest hE (Nat.pos_iff_ne_zero.mp hj0)]
      simp only [read_start]
      simp only [skip_zeros_sync _ _ j rest hj]
      simp [read_bits]
    | cons a tl =>
      have ha := hall a (List.mem_cons_self a tl)
      have hE : ({ s with edges := (a :: tl) ++ j :: rest } : Mach).edges
          = a :: (tl ++ j :: rest) := by simp
      simp only [cmd_r,
        read_wait_start_cons _ a (tl ++ j :: rest) hE (Nat.pos_iff_ne_zero.mp ha.1)]
      simp only [read_start]
      have hlen2 : 2 * MAXBUFF_SIZE * 8 = tl.length + (574 - tl.length) + 2 := by
        rw [h576] at hlen ⊢
        simp at hlen
        omega
      rw [hlen2, skip_zeros_run s.semibit tl (574 - tl.length) a j rest
        (fun e he => hall e (List.mem_cons_of_mem a he)) ha.1 ha.2 hj]
      simp [read_bits]

/-- C4 witness: 576 strictly-short pulses yield `ERR_EMPTY_MESSAGE`, and a
short pulse followed by a long one proceeds to decode the remaining
intervals. -/
theorem C4_amended_witness :
    cmd_r { mkMach 190 [] with edges := List.replicate 576 100 ++ [] }
      = ⟨ERR_EMPTY_MESSAGE, none⟩ ∧
    cmd_r { mkMach 190 [] with edges := [100] ++ 400 :: [400] }
      = c_finish (rb_run 190 288 [400] .READING
          (List.replicate (8 * MAXBUFF_SIZE) false) 0 []) :=
  ⟨C4_amended.1 (mkMach 190 []) (List.replicate 576 100) [] (by rw [List.length_replicate]; norm_num [MAXBUFF_SIZE])
      (by
        intro e he
        rw [List.mem_replicate] at he
        rcases he with ⟨-, rfl⟩
        decide),
   C4_amended.2 (mkMach 190 []) [100] 400 [400] (by decide)
      (by
        intro e he
        rcases List.mem_singleton.mp he with rfl
        decide)
      (by decide) (by decide)⟩

/-- C6 witness: a transmit+receive over edge stream [200, 400] decodes one
bit with status `ERR_NOERR` and does emit the payload buffer. -/
theorem C6_payload_iff_noerr_witness :
    (cmd_c 0 1 [] (mkMach 190 [200, 400])).2.code = ERR_NOERR ∧
    (cmd_c 0 1 [] (mkMach 190 [200, 400])).2.payload
      = some (read_bits 1 (read_wait (read_start (mkMach 190 [200, 400]))).2
          (List.replicate (8 * IOBUFF_SIZE) false)).buff :=
  ⟨by decide,
    (C6_payload_iff_noerr 0 1 [] (mkMach 190 [200, 400])).2 (by decide)⟩
